import Mathlib

/-!
Verification development for the FlipSketch modified text-to-video diffusion
pipeline (`text2vid_torch2.py`).  The file gives a shallow embedding of the
pipeline's own code: the per-attention-module memory cell and its injection
function `get_qk`, the custom pre-softmax attention logit computation of
`scaled_dot_product_attention`, the self-attention flag togglers, the
dual-branch step driver `call_network`, the latent optimizer
`optimize_latents`, and the shape/control-flow skeleton of the pipeline's
`__call__`.  Tensors are modelled with exact rationals; the frame dimension
of a video latent is a list of frames; external collaborators (unet,
scheduler) are abstract function parameters, following the spec's
collaborator contracts.
-/

namespace FlipSketch

/-- A 3-dimensional tensor `[batch, seq, dim]` as nested lists of rationals,
as handed to `AttnProcessor2_0.get_qk` for `query` and `key`. -/
abbrev L3 := List (List (List ℚ))

/-- `t.shape[1]` of a (uniform) 3-d tensor: length of the first batch entry. -/
def dim1 (t : L3) : ℕ := (t.headD []).length

/-- `t.shape[2]` of a (uniform) 3-d tensor. -/
def dim2 (t : L3) : ℕ := ((t.headD []).headD []).length

/-- The full shape tuple `t.shape` of a (uniform) 3-d tensor. -/
def shape3 (t : L3) : ℕ × ℕ × ℕ := (t.length, dim1 t, dim2 t)

/-- The per-attention-module mutable state installed by `init_attention_func`
and `init_attention_params`: the cached query/key slice, the use/save flag
pair, and the per-run scalar parameters.  `num_frames` is `Option` because
`init_attention_func` sets it to Python `None`; the source's comparisons
`shape == num_frames` are then false, and `shape != num_frames` true, which
`Option` equality reproduces. -/
structure AttnCell where
  use_last_attn_slice : Bool
  save_last_attn_slice : Bool
  last_attn_slice : Option (L3 × L3)
  LAMBDA : ℚ
  num_frames : Option ℕ
  bs : ℕ
deriving DecidableEq, Repr

/-- The cell state set up by `init_attention_func` on every Attention module:
`last_attn_slice = None`, both flags cleared, `LAMBDA = 0`,
`num_frames = None`, `bs = 0`. -/
def initCell : AttnCell :=
  { use_last_attn_slice := false
    save_last_attn_slice := false
    last_attn_slice := none
    LAMBDA := 0
    num_frames := none
    bs := 0 }

instance : Inhabited AttnCell := ⟨initCell⟩

/-- The dynamic lambda (blend weight) vector built in `get_qk`:
`[1 + LAMBDA * (i/50) for i in range(num_frames)]`. -/
def dynamicLambdaVec (lam : ℚ) (numFrames : ℕ) : List ℚ :=
  (List.range numFrames).map (fun i : ℕ => 1 + lam * ((i : ℚ) / 50))

/-- `key1[:, :1, :kd] = key_list[:, :1]` with `kd = key_list.shape[2]`:
for each batch entry, the first `kd` entries of sequence row 0 are
overwritten with the cached key's row 0.  Batches are paired positionally
(the source's assignment requires equal batch sizes). -/
def key1Assign (key keyList : L3) : L3 :=
  let kd := dim2 keyList
  List.zipWith
    (fun kb klb =>
      match kb with
      | [] => []
      | r0 :: rest => ((klb.headD []).take kd ++ r0.drop kd) :: rest)
    key keyList

/-- One batch entry of the Case-B slice assignment: overwrite the first
`nSeq` rows' first `nDim` entries of `dstB` with the rows of `srcB`. -/
def overwriteRows (dstB srcB : List (List ℚ)) (nSeq nDim : ℕ) : List (List ℚ) :=
  dstB.enum.map
    (fun p => if p.1 < nSeq then (srcB.getD p.1 []).take nDim ++ p.2.drop nDim else p.2)

/-- `dst[start : start + len, :nSeq, :nDim] = src`, the inner assignment of
the Case-B loop in `get_qk`. -/
def assignSlice3 (dst : L3) (start len : ℕ) (src : L3) (nSeq nDim : ℕ) : L3 :=
  dst.enum.map
    (fun p =>
      if start ≤ p.1 ∧ p.1 < start + len then
        overwriteRows p.2 (src.getD (p.1 - start) []) nSeq nDim
      else p.2)

/-- The Case-B mutation of `query` in `get_qk`:
`for i in range(bs): query[i*all_dim : i*all_dim + batch_dim, :ql_seq, :ql_dim]
 = query_list[i*batch_dim : (i+1)*batch_dim]`
with `batch_dim = query_list.shape[0] // bs` and `all_dim = query.shape[0] // bs`. -/
def caseBAssign (bs : ℕ) (query queryList : L3) : L3 :=
  let batchDim := queryList.length / bs
  let allDim := query.length / bs
  (List.range bs).foldl
    (fun q i =>
      assignSlice3 q (i * allDim) batchDim
        ((queryList.drop (i * batchDim)).take batchDim) (dim1 queryList) (dim2 queryList))
    query

/-- The values returned by `get_qk`, plus the cell state after the call
(the source mutates `self`). -/
structure GetQKResult where
  query : L3
  key : L3
  dynamic_lambda : Option (List ℚ)
  key1 : Option L3
  cell : AttnCell
deriving DecidableEq, Repr

/-- `AttnProcessor2_0.get_qk`: if the use flag is set and a slice is cached,
either (Case A, `query.shape[1] == num_frames and query.shape == key.shape`)
build the secondary key `key1` and the dynamic lambda vector, or (Case B,
`q_old.shape == k_old.shape and q_old.shape[1] != num_frames`) overwrite a
batched sub-block of the query with the cached query; if the save flag is
set, store the (possibly already mutated) query together with the key as the
new cached slice and clear the save flag. -/
def get_qk (cell : AttnCell) (query key : L3) : GetQKResult :=
  let q_old := query
  let k_old := key
  let step :=
    if cell.use_last_attn_slice then
      match cell.last_attn_slice with
      | some (query_list, key_list) =>
        let dlk1 :=
          if some (dim1 query) = cell.num_frames ∧ shape3 query = shape3 key then
            (some (dynamicLambdaVec cell.LAMBDA (cell.num_frames.getD 0)),
             some (key1Assign key key_list))
          else (none, none)
        let query2 :=
          if shape3 q_old = shape3 k_old ∧ some (dim1 q_old) ≠ cell.num_frames then
            caseBAssign cell.bs query query_list
          else query
        (query2, dlk1.1, dlk1.2)
      | none => (query, none, none)
    else (query, none, none)
  let cell2 :=
    if cell.save_last_attn_slice then
      { cell with last_attn_slice := some (step.1, key), save_last_attn_slice := false }
    else cell
  { query := step.1, key := key, dynamic_lambda := step.2.1, key1 := step.2.2, cell := cell2 }

/-- Does the character list start with the pattern list? -/
def listStartsWith : List Char → List Char → Bool
  | [], _ => true
  | _ :: _, [] => false
  | p :: ps, c :: cs => p == c && listStartsWith ps cs

/-- Does the character list contain the pattern list as a contiguous run? -/
def listHasRun (pat : List Char) : List Char → Bool
  | [] => listStartsWith pat []
  | c :: cs => listStartsWith pat (c :: cs) || listHasRun pat cs

/-- Python's `pat in s` on strings: substring containment. -/
def strContains (s pat : String) : Bool := listHasRun pat.toList s.toList

/-- A module as enumerated by `unet.named_modules()`: its dotted name, the
name of its Python class, and (for Attention modules) the processor's
memory cell. -/
structure NamedModule where
  name : String
  typeName : String
  cell : AttnCell
deriving DecidableEq, Repr

instance : Inhabited NamedModule := ⟨⟨"", "", initCell⟩⟩

/-- `use_last_self_attention(unet, use)`: set `use_last_attn_slice` on every
module whose class name is `Attention` and whose dotted name contains
`attn1`; leave every other module untouched. -/
def use_last_self_attention (mods : List NamedModule) (use : Bool) : List NamedModule :=
  mods.map
    (fun m =>
      if m.typeName == "Attention" && strContains m.name "attn1" then
        { m with cell := { m.cell with use_last_attn_slice := use } }
      else m)

/-- `save_last_self_attention(unet, save)`: set `save_last_attn_slice` on
every module whose class name is `Attention` and whose dotted name contains
`attn1`; leave every other module untouched. -/
def save_last_self_attention (mods : List NamedModule) (save : Bool) : List NamedModule :=
  mods.map
    (fun m =>
      if m.typeName == "Attention" && strContains m.name "attn1" then
        { m with cell := { m.cell with save_last_attn_slice := save } }
      else m)

/-- Dot product of two rows, `(q * k).sum` over paired entries. -/
def dotL (q k : List ℚ) : ℚ := (List.zipWith (fun a b => a * b) q k).sum

/-- `Q @ K.transpose(-2, -1)` on one `[seq, dim]` slice: entry `(l, s)` is
the dot product of query row `l` with key row `s`. -/
def matmulT (Q K : List (List ℚ)) : List (List ℚ) :=
  Q.map (fun qr => K.map (fun kr => dotL qr kr))

/-- The pre-bias attention logits of the modified
`scaled_dot_product_attention` (lines 56-62) in the configuration the
pipeline uses (no mask, `is_causal=False`, `enable_gqa=False`), for the
branch where a secondary key `k1` and blend vector `d_l` are supplied.
`query`, `key`, `k1` are 4-d tensors `[batch, dim1, seq, head_dim]` given as
functions of the two leading indices; the result is the `[L, S]` logit slice
at batch `b`, dim-1 index `h`:
`attn_weight = query @ key.T`, then
`attn_weight[:, :len(d_l), 0] = attn_k1[:, :len(d_l), 0] * d_l`
(the blend vector broadcasting along the trailing key-position axis), then
`attn_weight = attn_weight * scale_factor`.  The additive bias, softmax,
dropout and the multiplication by `value` follow these lines and are not
part of the logit computation the claim is about. -/
def sdpaLogits (scale : ℚ) (query key k1 : ℕ → ℕ → List (List ℚ))
    (d_l : List ℚ) (b h : ℕ) : List (List ℚ) :=
  let attn_k1 := matmulT (query b h) (k1 b h)
  let attn_weight := matmulT (query b h) (key b h)
  let attn_weight2 :=
    if h < d_l.length then
      attn_weight.set 0 (List.zipWith (fun a w => a * w) (attn_k1.headD []) d_l)
    else attn_weight
  attn_weight2.map (fun row => row.map (fun x => x * scale))

/-- The claim's reading of the replacement step, written from the spec's
words for comparison with `sdpaLogits`: the logit at `(b, h, l, s)` where,
for each index `h` ("frame index") below the blend vector's length, the
row at sequence-position 0 is the secondary-key similarity multiplied by
the single weight `d_l[h]`. -/
def sdpaLogitsClaimed (scale : ℚ) (query key k1 : ℕ → ℕ → List (List ℚ))
    (d_l : List ℚ) (b h l s : ℕ) : ℚ :=
  (if h < d_l.length ∧ l = 0 then
      dotL ((query b h).getD 0 []) ((k1 b h).getD s []) * d_l.getD h 0
    else dotL ((query b h).getD l []) ((key b h).getD s [])) * scale

/-- Inversion-branch cutoff: after step index `TAU_2` the inversion branch
is no longer denoised. -/
def TAU_2 : ℕ := 15

/-- Reserved constant, defined by the source but never referenced by the
step driver. -/
def TAU_1 : ℕ := 10

/-- Classifier-free guidance: `uncond + guidance_scale * (cond - uncond)`
elementwise when guidance is enabled, the conditional prediction alone
otherwise (the source computes and uses the unconditional prediction only
under `do_classifier_free_guidance`). -/
def guidedPred (doCFG : Bool) (g : ℚ) (uncond cond : List ℚ) : List ℚ :=
  if doCFG then List.zipWith (fun u c => u + g * (c - u)) uncond cond else cond

/-- The four values returned by `call_network`'s dictionary. -/
structure CallNetOut where
  latents : List ℚ
  invLatents : List ℚ
  noisePred : List ℚ
  noiseNullPred : Option (List ℚ)
deriving DecidableEq, Repr

/-- `TextToVideoSDPipelineModded.call_network` for one timestep.  Latent
tensors are flattened to `List ℚ`; the external collaborators are abstract
function parameters: `unet` (latents, timestep, conditioning) → noise,
`scaleModelInput` and `schedStep` for the scheduler, and
`mergeFrames`/`unmergeFrames` for the permute/reshape pair that merges the
frame axis into the batch axis around `scheduler.step` (data rearrangements
of the 5-d tensor).  The unconditional predictions are written
unconditionally here but consumed only under guidance, matching the guarded
uses in the source.  The attention save/use flag toggles on the module list
are threaded exactly where the source calls `save_last_self_attention` and
`use_last_self_attention`.  Returns the updated generation and inversion
latents, the (frame-merged) guided noise prediction, the optional
(frame-merged) guided inversion noise prediction, and the module list. -/
def call_network {ε : Type} (unet : List ℚ → ℕ → ε → List ℚ)
    (scaleModelInput : List ℚ → ℕ → List ℚ)
    (schedStep : List ℚ → ℕ → List ℚ → List ℚ)
    (mergeFrames unmergeFrames : List ℚ → List ℚ)
    (negative_prompt_embeds prompt_embeds null_embeds : ε)
    (mods : List NamedModule)
    (latents inv_latents : List ℚ) (t i : ℕ)
    (do_classifier_free_guidance : Bool) (guidance_scale : ℚ) :
    CallNetOut × List NamedModule :=
  let inv_latent_model_input := scaleModelInput inv_latents t
  let latent_model_input := scaleModelInput latents t
  let noise_pred_uncond := unet latent_model_input t negative_prompt_embeds
  let noise_null_pred_uncond := unet inv_latent_model_input t negative_prompt_embeds
  let branch :=
    if i ≤ TAU_2 then
      let mods1 := save_last_self_attention mods true
      let p0 := unet inv_latent_model_input t null_embeds
      let p1 := guidedPred do_classifier_free_guidance guidance_scale noise_null_pred_uncond p0
      let noise_null_pred := mergeFrames p1
      let inv2 := unmergeFrames (schedStep noise_null_pred t (mergeFrames inv_latents))
      (inv2, some noise_null_pred, use_last_self_attention mods1 true)
    else (inv_latents, none, mods)
  let np0 := unet latent_model_input t prompt_embeds
  let mods3 := use_last_self_attention branch.2.2 false
  let np1 := guidedPred do_classifier_free_guidance guidance_scale noise_pred_uncond np0
  let noise_pred := mergeFrames np1
  let latents2 := unmergeFrames (schedStep noise_pred t (mergeFrames latents))
  ({ latents := latents2, invLatents := branch.1, noisePred := noise_pred,
     noiseNullPred := branch.2.1 }, mods3)

/-- Loop state of `optimize_latents`: the last computed `latent_in`, the
trainable frames `latent_train`, and the number of unet forward passes. -/
structure OptState where
  latentIn : List (List ℚ)
  train : List (List ℚ)
  unetCalls : ℕ
deriving DecidableEq, Repr

/-- The `for j in range(10)` loop of `optimize_latents`, with the iteration
index threaded: each pass builds
`latent_in = cat([inv_latents frame 0, latent_train])`, runs one unet
forward (counted), and applies one optimizer update `upd j` to the
trainable frames. -/
def optLoopFrom (upd : ℕ → List (List ℚ) → List (List ℚ))
    (invHead : List (List ℚ)) : ℕ → ℕ → OptState → OptState
  | _, 0, s => s
  | j, n + 1, s =>
      optLoopFrom upd invHead (j + 1) n
        { latentIn := invHead ++ s.train, train := upd j s.train,
          unetCalls := s.unetCalls + 1 }

/-- `TextToVideoSDPipelineModded.optimize_latents`.  The frame axis of a
latent is a list of flattened frames.  `upd j` abstracts the j-th Adam step
(lr 1e-3: backward of the frame-0 MSE loss through the unet forward, then
`optimizer.step()`) as a map on the trainable frames `latents[1:]`.  The
initial call count `1` is the target `noise_null_pred` forward on the
inversion branch's first frame; each loop pass adds one forward.  Returns
the final (detached) `latent_in` together with the total number of unet
forward passes. -/
def optimize_latents (upd : ℕ → List (List ℚ) → List (List ℚ))
    (latents inv_latents : List (List ℚ)) : List (List ℚ) × ℕ :=
  let final := optLoopFrom upd (inv_latents.take 1) 0 10
    { latentIn := [], train := latents.drop 1, unetCalls := 1 }
  (final.latentIn, final.unetCalls)

/-- The Python exceptions the modelled fragment of `__call__` can raise. -/
inductive PyErr
  | attributeError
  | assertionError
deriving DecidableEq, Repr

/-- The shape of a 5-d latent tensor `[batch, channel, frame, height, width]`. -/
structure Shape5 where
  batch : ℕ
  channels : ℕ
  frames : ℕ
  height : ℕ
  width : ℕ
deriving DecidableEq, Repr

/-- Modelled from the spec: `prepare_latents` of the diffusers base
pipeline, an external collaborator absent from this repository.  Per the
spec's "two latent buffers (random or caller-supplied)", it returns the
caller-supplied tensor when present and otherwise a freshly sampled random
tensor of the requested shape (only shapes are tracked here). -/
def prepare_latents (generated : Shape5) : Option Shape5 → Shape5
  | none => generated
  | some l => l

/-- One pass of the denoising loop body of `__call__` at step index `i`,
acting on (generation shape, inversion shape, trace of inversion frame
counts): `curr_copy = max(1, num_frames - i)`, slice the inversion branch
to its first `curr_copy` frames, then run `call_network`, whose scheduler
updates preserve both shapes.  The trace records the inversion branch's
temporal length used during the step. -/
def loopBodyShape (num_frames : ℕ) (st : Shape5 × Shape5 × List ℕ) (i : ℕ) :
    Shape5 × Shape5 × List ℕ :=
  let curr_copy := max 1 (num_frames - i)
  let inv2 := { st.2.1 with frames := min st.2.1.frames curr_copy }
  (st.1, inv2, st.2.2 ++ [inv2.frames])

/-- The shape and control-flow skeleton of
`TextToVideoSDPipelineModded.__call__`: derive the batch size from
`inv_latents.shape[0]` (an `AttributeError` when `inv_latents` is `None`),
prepare both latent buffers via `prepare_latents`, assert that the two
batch sizes agree (an `AssertionError` before the loop otherwise), repeat
the inversion latent `num_frames` times along the frame axis, blend frame 0
through the binary mask (shape-preserving), and run the denoising loop.
Returns the final generation shape, the final inversion shape, and the
per-step trace of inversion temporal lengths. -/
def pipelineCall (num_frames num_inference_steps num_channels hgt wdt : ℕ)
    (latents_in inv_latents_in : Option Shape5) :
    Except PyErr (Shape5 × Shape5 × List ℕ) :=
  match inv_latents_in with
  | none => Except.error PyErr.attributeError
  | some inv0 =>
    let batch_size := inv0.batch
    let latents := prepare_latents
      ⟨batch_size, num_channels, num_frames, hgt, wdt⟩ latents_in
    let inv_latents := prepare_latents
      ⟨batch_size, num_channels, num_frames, hgt, wdt⟩ (some inv0)
    if latents.batch = inv_latents.batch then
      let inv_latents1 := { inv_latents with frames := inv_latents.frames * num_frames }
      Except.ok ((List.range num_inference_steps).foldl
        (loopBodyShape num_frames) (latents, inv_latents1, []))
    else Except.error PyErr.assertionError

/-! ## Theorems -/

/-- Claim C6: whenever the module's cached slice is absent
(`last_attn_slice = None`), `get_qk` returns `(query, key, None, None)` with
the query and key unmodified, regardless of how the use and save flags are
set. -/
theorem getqk_no_slice_passthrough (cell : AttnCell) (q k : L3)
    (hNone : cell.last_attn_slice = none) :
    (get_qk cell q k).query = q ∧ (get_qk cell q k).key = k ∧
      (get_qk cell q k).dynamic_lambda = none ∧ (get_qk cell q k).key1 = none := by
  cases hU : cell.use_last_attn_slice <;>
    simp [get_qk, hNone, hU]

/-- Witness for C6 at a concrete input with both flags set. -/
theorem getqk_no_slice_passthrough_witness :
    (get_qk { initCell with use_last_attn_slice := true, save_last_attn_slice := true }
        [[[1]]] [[[2]]]).query = [[[1]]] ∧
    (get_qk { initCell with use_last_attn_slice := true, save_last_attn_slice := true }
        [[[1]]] [[[2]]]).key = [[[2]]] ∧
    (get_qk { initCell with use_last_attn_slice := true, save_last_attn_slice := true }
        [[[1]]] [[[2]]]).dynamic_lambda = none ∧
    (get_qk { initCell with use_last_attn_slice := true, save_last_attn_slice := true }
        [[[1]]] [[[2]]]).key1 = none :=
  getqk_no_slice_passthrough _ _ _ rfl

/-- Claim C2: in Case A of `get_qk` (use flag set, a slice cached, sequence
length equal to `num_frames`, query and key shapes equal) the blend weight
vector returned is exactly `[1 + LAMBDA * (i/50) for i in range(num_frames)]`,
element for element, on every call. -/
theorem getqk_caseA_blend_vector (cell : AttnCell) (query key : L3) (F : ℕ)
    (ql kl : L3)
    (hUse : cell.use_last_attn_slice = true)
    (hSlice : cell.last_attn_slice = some (ql, kl))
    (hNF : cell.num_frames = some F)
    (hSeq : dim1 query = F)
    (hShape : shape3 query = shape3 key) :
    ∃ dl : List ℚ, (get_qk cell query key).dynamic_lambda = some dl ∧
      dl.length = F ∧ ∀ i, i < F → dl.getD i 0 = 1 + cell.LAMBDA * ((i : ℚ) / 50) := by
  refine ⟨dynamicLambdaVec cell.LAMBDA F, ?_, ?_, ?_⟩
  · simp [get_qk, hUse, hSlice, hNF, hSeq, hShape]
  · rw [dynamicLambdaVec, List.length_map, List.length_range]
  · intro i hi
    have hlen : i < (dynamicLambdaVec cell.LAMBDA F).length := by
      rw [dynamicLambdaVec, List.length_map, List.length_range]; exact hi
    rw [List.getD_eq_getElem _ _ hlen]
    simp only [dynamicLambdaVec, List.getElem_map, List.getElem_range]

/-- Witness for C2 at a concrete Case-A input. -/
theorem getqk_caseA_blend_vector_witness :
    ∃ dl : List ℚ,
      (get_qk { use_last_attn_slice := true
                save_last_attn_slice := false
                last_attn_slice := some ([[[9], [9]]], [[[7], [7]]])
                LAMBDA := 1/2
                num_frames := some 2
                bs := 1 } [[[1], [2]]] [[[3], [4]]]).dynamic_lambda = some dl ∧
      dl.length = 2 ∧ ∀ i, i < 2 → dl.getD i 0 = 1 + (1 / 2 : ℚ) * ((i : ℚ) / 50) :=
  getqk_caseA_blend_vector _ _ _ 2 [[[9], [9]]] [[[7], [7]]] rfl rfl rfl rfl rfl

/-- Concrete cell whose cached slice triggers a Case-B query injection while
the save flag is also set. -/
def cellC3ex : AttnCell :=
  { use_last_attn_slice := true
    save_last_attn_slice := true
    last_attn_slice := some ([[[5]]], [[[7]]])
    LAMBDA := 0
    num_frames := some 2
    bs := 1 }

/-- Concrete query passed to `get_qk` alongside `cellC3ex`. -/
def qC3ex : L3 := [[[0]]]

/-- Concrete key passed to `get_qk` alongside `cellC3ex`. -/
def kC3ex : L3 := [[[0]]]

/-- Counterexample to C3 as stated: on a call with the save flag set in
which the use path performs a Case-B query injection, the cached slice
after the call is not the exact `(query, key)` pair that was passed in —
the stored query is the injected one. -/
theorem getqk_save_exact_counterexample :
    cellC3ex.save_last_attn_slice = true ∧
      ¬ ((get_qk cellC3ex qC3ex kC3ex).cell.save_last_attn_slice = false ∧
         (get_qk cellC3ex qC3ex kC3ex).cell.last_attn_slice = some (qC3ex, kC3ex)) := by
  decide

/-- Claim C3 (amended): after any call of `get_qk` with the save flag set,
the cell's save flag is false and its cached slice equals the pair
`(query, key)` as of the save point — the key exactly as passed in and the
query after any Case-B injection performed earlier in the same call
(unconditionally overwriting any prior slice); this is the exact passed-in
pair whenever no injection rewrote the query. -/
theorem getqk_save_captures (cell : AttnCell) (q k : L3)
    (hSave : cell.save_last_attn_slice = true) :
    (get_qk cell q k).cell.save_last_attn_slice = false ∧
      (get_qk cell q k).cell.last_attn_slice = some ((get_qk cell q k).query, k) := by
  simp [get_qk, hSave]

/-- Witness for the amended C3 at the Case-B input of the counterexample. -/
theorem getqk_save_captures_witness :
    (get_qk cellC3ex qC3ex kC3ex).cell.save_last_attn_slice = false ∧
      (get_qk cellC3ex qC3ex kC3ex).cell.last_attn_slice =
        some ((get_qk cellC3ex qC3ex kC3ex).query, kC3ex) :=
  getqk_save_captures cellC3ex qC3ex kC3ex rfl

/-- Mapping a function over a list leaves a position unchanged when the
function fixes the element at that position. -/
theorem map_getD_of_fixed {α : Type _} [Inhabited α] (g : α → α) (l : List α) (i : ℕ)
    (hi : i < l.length) (hfix : g (l.getD i default) = l.getD i default) :
    (l.map g).getD i default = l.getD i default := by
  have hi2 : i < (l.map g).length := by simpa using hi
  rw [List.getD_eq_getElem _ _ hi2, List.getElem_map]
  rw [List.getD_eq_getElem _ _ hi] at hfix ⊢
  exact hfix

/-- Claim C10: `use_last_self_attention` and `save_last_self_attention`
change the use/save flags only on attention modules identified as
self-attention (class name `Attention`, dotted name containing `attn1`);
every module not of that form — in particular every cross-attention
module — is left entirely unchanged at its position, and the module list
keeps its length. -/
theorem selfattn_toggle_scoped (mods : List NamedModule) (v : Bool) (i : ℕ)
    (hi : i < mods.length)
    (hNotSelf : ((mods.getD i default).typeName == "Attention"
        && strContains (mods.getD i default).name "attn1") = false) :
    (use_last_self_attention mods v).length = mods.length ∧
      (save_last_self_attention mods v).length = mods.length ∧
      (use_last_self_attention mods v).getD i default = mods.getD i default ∧
      (save_last_self_attention mods v).getD i default = mods.getD i default := by
  have h' : ¬ ((mods.getD i default).typeName == "Attention"
      && strContains (mods.getD i default).name "attn1") = true := by
    rw [hNotSelf]; exact Bool.false_ne_true
  refine ⟨by simp [use_last_self_attention], by simp [save_last_self_attention], ?_, ?_⟩
  · exact map_getD_of_fixed _ mods i hi (if_neg h')
  · exact map_getD_of_fixed _ mods i hi (if_neg h')

/-- Witness for C10: a cross-attention module (`attn2`) with both flags
clear is untouched by either toggler. -/
theorem selfattn_toggle_scoped_witness :
    (use_last_self_attention [⟨"mid_block.attentions.0.attn2", "Attention", initCell⟩]
        true).length = 1 ∧
      (save_last_self_attention [⟨"mid_block.attentions.0.attn2", "Attention", initCell⟩]
        true).length = 1 ∧
      (use_last_self_attention [⟨"mid_block.attentions.0.attn2", "Attention", initCell⟩]
          true).getD 0 default
        = (([⟨"mid_block.attentions.0.attn2", "Attention", initCell⟩] :
            List NamedModule)).getD 0 default ∧
      (save_last_self_attention [⟨"mid_block.attentions.0.attn2", "Attention", initCell⟩]
          true).getD 0 default
        = (([⟨"mid_block.attentions.0.attn2", "Attention", initCell⟩] :
            List NamedModule)).getD 0 default :=
  selfattn_toggle_scoped _ true 0 (by decide) (by decide)

/-- Claim C5: at every timestep index `i > TAU_2` the step driver skips
inversion-branch denoising — the inversion noise prediction is `None` and
the inversion latents are returned exactly as received — while the
generation branch is still denoised by the unet, combined by classifier-free
guidance, and advanced one scheduler step. -/
theorem call_network_skips_inversion {ε : Type} (unet : List ℚ → ℕ → ε → List ℚ)
    (scaleModelInput : List ℚ → ℕ → List ℚ)
    (schedStep : List ℚ → ℕ → List ℚ → List ℚ)
    (mergeFrames unmergeFrames : List ℚ → List ℚ)
    (negE promptE nullE : ε) (mods : List NamedModule)
    (latents inv_latents : List ℚ) (t i : ℕ) (doCFG : Bool) (g : ℚ)
    (hi : TAU_2 < i) :
    (call_network unet scaleModelInput schedStep mergeFrames unmergeFrames
        negE promptE nullE mods latents inv_latents t i doCFG g).1.noiseNullPred = none ∧
      (call_network unet scaleModelInput schedStep mergeFrames unmergeFrames
        negE promptE nullE mods latents inv_latents t i doCFG g).1.invLatents
        = inv_latents ∧
      (call_network unet scaleModelInput schedStep mergeFrames unmergeFrames
        negE promptE nullE mods latents inv_latents t i doCFG g).1.noisePred
        = mergeFrames (guidedPred doCFG g (unet (scaleModelInput latents t) t negE)
            (unet (scaleModelInput latents t) t promptE)) ∧
      (call_network unet scaleModelInput schedStep mergeFrames unmergeFrames
        negE promptE nullE mods latents inv_latents t i doCFG g).1.latents
        = unmergeFrames (schedStep
            (mergeFrames (guidedPred doCFG g (unet (scaleModelInput latents t) t negE)
              (unet (scaleModelInput latents t) t promptE)))
            t (mergeFrames latents)) := by
  have hnot : ¬ i ≤ TAU_2 := not_le.mpr hi
  simp [call_network, hnot]

/-- Witness for C5 at step index 16 with concrete collaborators. -/
theorem call_network_skips_inversion_witness :
    (call_network (ε := ℚ) (fun l _ e => l.map (fun x => x + e)) (fun l _ => l)
        (fun n _ l => List.zipWith (fun a b => a - b) l n) id id
        5 7 9 [] [1, 2] [3, 4] 100 16 true 2).1.noiseNullPred = none ∧
      (call_network (ε := ℚ) (fun l _ e => l.map (fun x => x + e)) (fun l _ => l)
        (fun n _ l => List.zipWith (fun a b => a - b) l n) id id
        5 7 9 [] [1, 2] [3, 4] 100 16 true 2).1.invLatents = [3, 4] ∧
      (call_network (ε := ℚ) (fun l _ e => l.map (fun x => x + e)) (fun l _ => l)
        (fun n _ l => List.zipWith (fun a b => a - b) l n) id id
        5 7 9 [] [1, 2] [3, 4] 100 16 true 2).1.noisePred
        = id (guidedPred true 2 (([1, 2] : List ℚ).map (fun x => x + 5))
            (([1, 2] : List ℚ).map (fun x => x + 7))) ∧
      (call_network (ε := ℚ) (fun l _ e => l.map (fun x => x + e)) (fun l _ => l)
        (fun n _ l => List.zipWith (fun a b => a - b) l n) id id
        5 7 9 [] [1, 2] [3, 4] 100 16 true 2).1.latents
        = id (List.zipWith (fun a b => a - b) (id ([1, 2] : List ℚ))
            (id (guidedPred true 2 (([1, 2] : List ℚ).map (fun x => x + 5))
              (([1, 2] : List ℚ).map (fun x => x + 7))))) :=
  call_network_skips_inversion _ _ _ _ _ 5 7 9 [] [1, 2] [3, 4] 100 16 true 2
    (by decide)

/-- Invariants of the optimizer loop: after `n` passes the unet forward
count grows by exactly `n`, the trainable frames keep their shapes (for a
shape-preserving update), and — once at least one pass ran — the recorded
`latent_in` is the inversion head glued onto trainable frames of the
original shapes. -/
theorem optLoopFrom_spec (upd : ℕ → List (List ℚ) → List (List ℚ))
    (hupd : ∀ j x, (upd j x).map List.length = x.map List.length)
    (invHead : List (List ℚ)) :
    ∀ n j s, (optLoopFrom upd invHead j n s).unetCalls = s.unetCalls + n ∧
      (optLoopFrom upd invHead j n s).train.map List.length
        = s.train.map List.length ∧
      (0 < n → ∃ tr2, (optLoopFrom upd invHead j n s).latentIn = invHead ++ tr2 ∧
        tr2.map List.length = s.train.map List.length) := by
  intro n
  induction n with
  | zero => intro j s; exact ⟨rfl, rfl, fun h => absurd h (lt_irrefl 0)⟩
  | succ m ih =>
    intro j s
    rw [optLoopFrom]
    obtain ⟨h1, h2, h3⟩ :=
      ih (j + 1) ⟨invHead ++ s.train, upd j s.train, s.unetCalls + 1⟩
    refine ⟨?_, by rw [h2]; exact hupd j s.train, ?_⟩
    · rw [h1]
      show s.unetCalls + 1 + m = s.unetCalls + (m + 1)
      omega
    intro _
    cases m with
    | zero => exact ⟨s.train, rfl, rfl⟩
    | succ k =>
      obtain ⟨tr2, e1, e2⟩ := h3 (Nat.succ_pos k)
      exact ⟨tr2, e1, by rw [e2]; exact hupd j s.train⟩

/-- Claim C7: `optimize_latents` performs exactly 10 optimizer iterations
with no convergence check — 11 unet forward passes in total, one for the
inversion-branch target plus one per iteration — and returns a latent whose
frame 0 is taken verbatim from the (detached) inversion latents and whose
remaining frames keep the shapes of the corresponding input frames, for any
shape-preserving optimizer update. -/
theorem optimize_latents_spec (upd : ℕ → List (List ℚ) → List (List ℚ))
    (latents inv_latents : List (List ℚ))
    (hupd : ∀ j x, (upd j x).map List.length = x.map List.length)
    (hInv : inv_latents ≠ []) (hLat : latents ≠ []) :
    (optimize_latents upd latents inv_latents).2 = 11 ∧
      (optimize_latents upd latents inv_latents).1.headD [] = inv_latents.headD [] ∧
      (optimize_latents upd latents inv_latents).1.length = latents.length ∧
      ∀ k, 0 < k → k < latents.length →
        ((optimize_latents upd latents inv_latents).1.getD k []).length
          = (latents.getD k []).length := by
  obtain ⟨a, rest, rfl⟩ := List.exists_cons_of_ne_nil hInv
  obtain ⟨h1, _, h3⟩ := optLoopFrom_spec upd hupd ((a :: rest).take 1) 10 0
    ⟨[], latents.drop 1, 1⟩
  obtain ⟨tr2, e1, e2⟩ := h3 (by norm_num)
  have hres : (optimize_latents upd latents (a :: rest)).1 = a :: tr2 := by
    rw [optimize_latents]
    simpa using e1
  have hlen2 : tr2.length = latents.length - 1 := by
    have := congrArg List.length e2
    simpa using this
  refine ⟨?_, ?_, ?_, ?_⟩
  · rw [optimize_latents]; simpa using h1
  · rw [hres]; rfl
  · rw [hres]
    have : latents.length ≠ 0 := fun h => hLat (List.length_eq_zero.mp h)
    simp [hlen2]
    omega
  · intro k hk0 hkLen
    rw [hres]
    have hk1 : k - 1 < tr2.length := by omega
    have hgoal : (tr2.getD (k - 1) []).length = ((latents.drop 1).getD (k - 1) []).length := by
      have hk2 : k - 1 < (latents.drop 1).length := by
        rw [List.length_drop]; omega
      have hm1 : k - 1 < (tr2.map List.length).length := by simpa using hk1
      have hm2 : k - 1 < ((latents.drop 1).map List.length).length := by simpa using hk2
      have hmap : (tr2.map List.length).getD (k - 1) 0
          = ((latents.drop 1).map List.length).getD (k - 1) 0 := by rw [e2]
      rw [List.getD_eq_getElem _ _ hm1, List.getD_eq_getElem _ _ hm2,
        List.getElem_map, List.getElem_map] at hmap
      rw [List.getD_eq_getElem _ _ hk1, List.getD_eq_getElem _ _ hk2]
      exact hmap
    have hcons : ((a :: tr2).getD k []) = tr2.getD (k - 1) [] := by
      obtain ⟨k', rfl⟩ : ∃ k', k = k' + 1 := ⟨k - 1, by omega⟩
      simp [List.getD_cons_succ]
    rw [hcons, hgoal]
    have hk2 : k - 1 < (latents.drop 1).length := by
      rw [List.length_drop]; omega
    rw [List.getD_eq_getElem _ _ hk2, List.getD_eq_getElem _ _ hkLen]
    congr 1
    rw [List.getElem_drop]
    congr 1
    omega

/-- Witness for C7 with the identity update and a three-frame input. -/
theorem optimize_latents_spec_witness :
    (optimize_latents (fun _ x => x) [[1], [2], [3]] [[9]]).2 = 11 ∧
      (optimize_latents (fun _ x => x) [[1], [2], [3]] [[9]]).1.headD []
        = ([[9]] : List (List ℚ)).headD [] ∧
      (optimize_latents (fun _ x => x) [[1], [2], [3]] [[9]]).1.length
        = ([[1], [2], [3]] : List (List ℚ)).length ∧
      ∀ k, 0 < k → k < ([[1], [2], [3]] : List (List ℚ)).length →
        ((optimize_latents (fun _ x => x) [[1], [2], [3]] [[9]]).1.getD k []).length
          = (([[1], [2], [3]] : List (List ℚ)).getD k []).length :=
  optimize_latents_spec (fun _ x => x) [[1], [2], [3]] [[9]]
    (fun _ _ => rfl) (by decide) (by decide)

/-- The denoising loop never changes the generation-branch shape: the loop
body only slices the inversion branch and records the trace. -/
theorem denoiseLoop_keeps_latents (F : ℕ) :
    ∀ (steps : List ℕ) (st : Shape5 × Shape5 × List ℕ),
      (steps.foldl (loopBodyShape F) st).1 = st.1 := by
  intro steps
  induction steps with
  | nil => intro st; rfl
  | cons a as ihs => intro st; rw [List.foldl_cons, ihs]; rfl

/-- Closed form of the denoising loop on shapes when the inversion branch
starts with exactly `F` frames: after `T` steps its temporal length is
`max 1 (F - (T - 1))` and the per-step trace is
`[max 1 (F - i) for i in range(T)]`. -/
theorem denoiseLoop_spec (F : ℕ) (hF : 1 ≤ F) (lat : Shape5) (b c hh w : ℕ) :
    ∀ T : ℕ, (List.range T).foldl (loopBodyShape F) (lat, ⟨b, c, F, hh, w⟩, [])
      = (lat, ⟨b, c, max 1 (F - (T - 1)), hh, w⟩,
        (List.range T).map (fun i => max 1 (F - i))) := by
  intro T
  induction T with
  | zero =>
    simp only [List.range_zero, List.foldl_nil, List.map_nil]
    have h1 : max 1 (F - (0 - 1)) = F := by omega
    rw [h1]
  | succ m ih =>
    rw [List.range_succ, List.foldl_append, ih, List.foldl_cons, List.foldl_nil,
      List.map_append]
    have hmin : min (max 1 (F - (m - 1))) (max 1 (F - m)) = max 1 (F - m) := by omega
    have hsub : m + 1 - 1 = m := rfl
    simp only [loopBodyShape, hmin, hsub, List.map_cons, List.map_nil]

/-- Claim C4: in every sampling run that reaches the loop with a
single-frame caller-supplied inversion latent (so that the repeat seeds the
inversion branch with `F` frames), the inversion branch's temporal length
during step `i` equals `max(1, F - i)`, a non-increasing sequence clamped
at 1, for every step index `i` of the run. -/
theorem pipeline_inv_window (F T C hh w : ℕ) (hF : 1 ≤ F)
    (latIn : Option Shape5) (inv0 : Shape5) (hOne : inv0.frames = 1)
    (lat inv : Shape5) (trace : List ℕ)
    (hOk : pipelineCall F T C hh w latIn (some inv0) = Except.ok (lat, inv, trace)) :
    ∀ i, i < T → trace.getD i 0 = max 1 (F - i) := by
  obtain ⟨b0, c0, f0, h0, w0⟩ := inv0
  have hOne' : f0 = 1 := hOne
  subst hOne'
  simp only [pipelineCall, prepare_latents] at hOk
  split at hOk
  · rw [show (1 : ℕ) * F = F from Nat.one_mul F] at hOk
    rw [denoiseLoop_spec F hF _ b0 c0 h0 w0 T] at hOk
    have htr : trace = (List.range T).map (fun i => max 1 (F - i)) :=
      congrArg (fun r => r.2.2) (Except.ok.inj hOk).symm
    intro i hiT
    rw [htr]
    have hi2 : i < ((List.range T).map (fun i => max 1 (F - i))).length := by
      simpa using hiT
    rw [List.getD_eq_getElem _ _ hi2, List.getElem_map, List.getElem_range]
  · simp at hOk

/-- Witness for C4: in a five-step run with `F = 3` whose inversion length
trace is `[3, 2, 1, 1, 1]`, the length during step 1 is `max 1 (3 - 1)`. -/
theorem pipeline_inv_window_witness :
    ([3, 2, 1, 1, 1] : List ℕ).getD 1 0 = max 1 (3 - 1) :=
  pipeline_inv_window 3 5 4 8 8 (by decide) none ⟨1, 4, 1, 8, 8⟩ rfl
    ⟨1, 4, 3, 8, 8⟩ ⟨1, 4, 1, 8, 8⟩ [3, 2, 1, 1, 1] rfl 1 (by decide)

/-- Counterexample to C8 as stated: invoking the pipeline with both latent
buffers omitted does not proceed through the sampling loop — the batch-size
derivation `inv_latents.shape[0]` dereferences `None` and the call dies with
an `AttributeError` before any latent is initialized. -/
theorem pipeline_omitted_counterexample :
    pipelineCall 16 50 4 64 64 none none = Except.error PyErr.attributeError := rfl

/-- Claim C8 (amended): the generation-branch latents may be omitted — they
are then initialized (randomly) by `prepare_latents` at the requested shape
and the call proceeds normally through the sampling loop — but the
inversion latents must be caller-supplied, since the batch size is read off
`inv_latents` before any initialization; omitting them aborts the call with
an `AttributeError`. -/
theorem pipeline_random_latents (F T C hh w : ℕ) (inv0 : Shape5) :
    pipelineCall F T C hh w none none = Except.error PyErr.attributeError ∧
      ∃ inv trace, pipelineCall F T C hh w none (some inv0)
        = Except.ok (⟨inv0.batch, C, F, hh, w⟩, inv, trace) := by
  refine ⟨rfl, ?_⟩
  obtain ⟨b0, c0, f0, h0, w0⟩ := inv0
  refine ⟨((List.range T).foldl (loopBodyShape F)
      (⟨b0, C, F, hh, w⟩, ⟨b0, c0, f0 * F, h0, w0⟩, [])).2.1,
    ((List.range T).foldl (loopBodyShape F)
      (⟨b0, C, F, hh, w⟩, ⟨b0, c0, f0 * F, h0, w0⟩, [])).2.2, ?_⟩
  simp only [pipelineCall, prepare_latents, eq_self_iff_true, if_true]
  congr 1
  exact Prod.ext (denoiseLoop_keeps_latents F _ _) rfl

/-- Claim C9: when the generation-branch and inversion-branch latent
tensors have different batch sizes, the pipeline call raises a fatal
`AssertionError` before the first denoising timestep executes, producing no
partial output. -/
theorem pipeline_batch_mismatch (F T C hh w : ℕ) (l0 inv0 : Shape5)
    (hNe : l0.batch ≠ inv0.batch) :
    pipelineCall F T C hh w (some l0) (some inv0)
      = Except.error PyErr.assertionError := by
  simp only [pipelineCall, prepare_latents]
  rw [if_neg hNe]

/-- Witness for C9 at concrete mismatched batch sizes 2 and 1. -/
theorem pipeline_batch_mismatch_witness :
    pipelineCall 3 5 4 8 8 (some ⟨2, 4, 3, 8, 8⟩) (some ⟨1, 4, 1, 8, 8⟩)
      = Except.error PyErr.assertionError :=
  pipeline_batch_mismatch 3 5 4 8 8 ⟨2, 4, 3, 8, 8⟩ ⟨1, 4, 1, 8, 8⟩ (by decide)

/-- The default head of a list equals its entry at index 0. -/
theorem headD_eq_getD_zero {α : Type _} (l : List α) (d : α) : l.headD d = l.getD 0 d := by
  cases l <;> rfl

/-- Entry extraction through `List.map` at an in-range index. -/
theorem getD_map_entry (f : List ℚ → ℚ) (K : List (List ℚ)) (s : ℕ) (hs : s < K.length) :
    (K.map f).getD s 0 = f (K.getD s []) := by
  rw [List.getD_eq_getElem _ _ (by simpa using hs), List.getElem_map,
    List.getD_eq_getElem _ _ hs]

/-- Row `l` of `Q @ K.T` is the key list mapped through the dot product
with query row `l`. -/
theorem matmulT_row (Q K : List (List ℚ)) (l : ℕ) (hl : l < Q.length) :
    (matmulT Q K).getD l [] = K.map (fun kr => dotL (Q.getD l []) kr) := by
  have hl2 : l < (matmulT Q K).length := by simpa [matmulT] using hl
  rw [List.getD_eq_getElem _ _ hl2]
  simp only [matmulT, List.getElem_map]
  rw [List.getD_eq_getElem _ _ hl]

/-- Entry extraction through the elementwise scaling of a matrix. -/
theorem map_scale_getD (c : ℚ) (W : List (List ℚ)) (l s : ℕ)
    (hl : l < W.length) (hs : s < (W.getD l []).length) :
    ((W.map (fun row => row.map (fun x => x * c))).getD l []).getD s 0
      = (W.getD l []).getD s 0 * c := by
  rw [List.getD_eq_getElem _ _ (by simpa using hl : l <
    (W.map (fun row => row.map (fun x => x * c))).length), List.getElem_map]
  rw [List.getD_eq_getElem _ _ hl] at hs ⊢
  rw [List.getD_eq_getElem _ _ (by simpa using hs : s < ((W[l]).map (fun x => x * c)).length),
    List.getElem_map, List.getD_eq_getElem _ _ hs]

/-- Entry extraction through an elementwise product of two rows. -/
theorem zipWith_mul_getD (a b : List ℚ) (s : ℕ) (hsa : s < a.length) (hsb : s < b.length) :
    (List.zipWith (fun x w => x * w) a b).getD s 0 = a.getD s 0 * b.getD s 0 := by
  have hs2 : s < (List.zipWith (fun x w => x * w) a b).length := by
    rw [List.length_zipWith]; omega
  rw [List.getD_eq_getElem _ _ hs2, List.getElem_zipWith,
    List.getD_eq_getElem _ _ hsa, List.getD_eq_getElem _ _ hsb]

/-- Setting row 0 leaves a row at a nonzero index unchanged. -/
theorem set_zero_getD_ne (W : List (List ℚ)) (r : List ℚ) (l : ℕ)
    (hl : l < W.length) (hl0 : l ≠ 0) :
    (W.set 0 r).getD l [] = W.getD l [] := by
  rw [List.getD_eq_getElem _ _ (by simpa using hl : l < (W.set 0 r).length),
    List.getElem_set_of_ne (Ne.symm hl0), List.getD_eq_getElem _ _ hl]

/-- Setting row 0 of a nonempty matrix makes it the row at index 0. -/
theorem set_zero_getD_eq (W : List (List ℚ)) (r : List ℚ) (h0 : 0 < W.length) :
    (W.set 0 r).getD 0 [] = r := by
  rw [List.getD_eq_getElem _ _ (by simpa using h0 : 0 < (W.set 0 r).length)]
  exact List.getElem_set_self (by simpa using h0)

/-- Counterexample to C1 as stated: at a concrete input the logit produced
by the code differs from the spec's formula in which the replaced entry is
multiplied by the blend weight indexed by the dim-1 ("frame") index — the
code's broadcast multiplies by the weight at the key position instead. -/
theorem sdpa_blend_counterexample :
    ((sdpaLogits 1 (fun _ _ => [[1, 0], [0, 1]]) (fun _ _ => [[0, 0], [0, 0]])
        (fun _ _ => [[0, 0], [1, 0]]) [1, 2] 0 0).getD 0 []).getD 1 0
      ≠ sdpaLogitsClaimed 1 (fun _ _ => [[1, 0], [0, 1]]) (fun _ _ => [[0, 0], [0, 0]])
        (fun _ _ => [[0, 0], [1, 0]]) [1, 2] 0 0 0 1 := by
  norm_num [sdpaLogits, sdpaLogitsClaimed, matmulT, dotL]

/-- Claim C1 (amended): when a secondary key and blend vector are supplied,
the attention logits are the usual query-primary-key similarities, except
that for each index `h` below the blend vector's length along the dimension
preceding the sequence axes (the head axis of the 4-d input), the logit row
at sequence-position 0 is replaced by the secondary-key similarities at
position 0 multiplied elementwise by the blend vector — the weight at key
position `s` is `d_l[s]`, broadcast along the key axis — and this
replacement happens before the scale factor (and the subsequent softmax)
is applied. -/
theorem sdpaLogits_entry (scale : ℚ) (query key k1 : ℕ → ℕ → List (List ℚ))
    (d_l : List ℚ) (b h l s : ℕ)
    (hl : l < (query b h).length)
    (hs : s < (key b h).length)
    (hs1 : s < (k1 b h).length)
    (hsd : s < d_l.length) :
    ((sdpaLogits scale query key k1 d_l b h).getD l []).getD s 0
      = (if h < d_l.length ∧ l = 0 then
            dotL ((query b h).getD 0 []) ((k1 b h).getD s []) * d_l.getD s 0
          else dotL ((query b h).getD l []) ((key b h).getD s [])) * scale := by
  simp only [sdpaLogits]
  by_cases hcase : h < d_l.length
  · rw [if_pos hcase]
    by_cases hl0 : l = 0
    · subst hl0
      rw [if_pos ⟨hcase, rfl⟩]
      rw [headD_eq_getD_zero, matmulT_row _ _ 0 hl]
      have hrowlen : s < (((matmulT (query b h) (key b h)).set 0
          (List.zipWith (fun a w => a * w)
            ((k1 b h).map (fun kr => dotL ((query b h).getD 0 []) kr)) d_l)).getD 0 []).length := by
        rw [set_zero_getD_eq _ _ (by simpa [matmulT] using hl), List.length_zipWith,
          List.length_map]
        omega
      rw [map_scale_getD scale _ 0 s (by simpa [matmulT] using hl) hrowlen]
      rw [set_zero_getD_eq _ _ (by simpa [matmulT] using hl)]
      rw [zipWith_mul_getD _ _ s (by simpa using hs1) hsd]
      rw [getD_map_entry _ _ s hs1]
    · rw [if_neg (fun hc => hl0 hc.2)]
      have hrow : (((matmulT (query b h) (key b h)).set 0
          (List.zipWith (fun a w => a * w)
            ((matmulT (query b h) (k1 b h)).headD []) d_l)).getD l [])
          = (key b h).map (fun kr => dotL ((query b h).getD l []) kr) := by
        rw [set_zero_getD_ne _ _ l (by simpa [matmulT] using hl) hl0, matmulT_row _ _ l hl]
      rw [map_scale_getD scale _ l s (by simpa [matmulT] using hl)
        (by rw [hrow]; simpa using hs)]
      rw [hrow, getD_map_entry _ _ s hs]
  · rw [if_neg hcase, if_neg (fun hc => hcase hc.1)]
    rw [map_scale_getD scale _ l s (by simpa [matmulT] using hl)
      (by rw [matmulT_row _ _ l hl]; simpa using hs)]
    rw [matmulT_row _ _ l hl, getD_map_entry _ _ s hs]

/-- Witness for the amended C1 at the counterexample's input, where the
replaced logit equals the key-position-indexed product. -/
theorem sdpaLogits_entry_witness :
    ((sdpaLogits 1 (fun _ _ => [[1, 0], [0, 1]]) (fun _ _ => [[0, 0], [0, 0]])
        (fun _ _ => [[0, 0], [1, 0]]) [1, 2] 0 0).getD 0 []).getD 1 0
      = (if (0 : ℕ) < ([1, 2] : List ℚ).length ∧ (0 : ℕ) = 0 then
            dotL ((([[1, 0], [0, 1]] : List (List ℚ))).getD 0 [])
              ((([[0, 0], [1, 0]] : List (List ℚ))).getD 1 []) * ([1, 2] : List ℚ).getD 1 0
          else dotL ((([[1, 0], [0, 1]] : List (List ℚ))).getD 0 [])
            ((([[0, 0], [0, 0]] : List (List ℚ))).getD 1 [])) * 1 :=
  sdpaLogits_entry 1 (fun _ _ => [[1, 0], [0, 1]]) (fun _ _ => [[0, 0], [0, 0]])
    (fun _ _ => [[0, 0], [1, 0]]) [1, 2] 0 0 0 1
    (by decide) (by decide) (by decide) (by decide)

end FlipSketch
